import Mathlib

/-!
Shallow embedding of `mdp_rrd_monitor/main.py` and verification of its
natural-language specification.

Modelling conventions:
* Python strings are modelled as `List Char`.
* Python `float` values (readings, scale factors, seconds) are modelled as
  exact rationals `ℚ`; the IEEE special values `inf`/`nan` are outside the
  model.  `datetime` instants and `timedelta` durations are both modelled as
  rational numbers of seconds since the epoch.
* Fallible Python code is modelled with `Option`/`Except`: raising an
  exception becomes returning `Except.error`.
* The `%.1f` printf rounding is modelled as round-half-to-even on the exact
  rational, the idealised counterpart of C's rounding of the binary double.
-/

namespace MdpRrd

attribute [local semireducible] Rat.mul Rat.add Rat.sub Rat.inv Rat.ofScientific

deriving instance DecidableEq for Except

/-- Floor of a rational as an integer, via flooring integer division
(`q.den` is positive, so `Int.fdiv q.num q.den` is exactly `⌊q⌋`). -/
def ratFloor (q : ℚ) : Int := Int.fdiv q.num q.den

/-- Round a rational to the nearest integer, ties to even: the idealised
model of C/Python printf rounding used by `"%.1f" % v`. -/
def rhe (q : ℚ) : Int :=
  let n := ratFloor q
  let r := q - (n : ℚ)
  if r < 1/2 then n
  else if (1 : ℚ)/2 < r then n + 1
  else if n % 2 = 0 then n else n + 1

/-- Decimal digits of a natural number, most significant first
(fuel-driven so that it reduces definitionally). -/
def natDigsAux : Nat → Nat → List Char
  | 0, _ => []
  | fuel + 1, n =>
    if n < 10 then [Nat.digitChar n]
    else natDigsAux fuel (n / 10) ++ [Nat.digitChar (n % 10)]

/-- Decimal representation of a natural number, as printf renders it. -/
def natDigs (n : Nat) : List Char := natDigsAux (n + 1) n

/-- Model of Python `"%.1f" % v` without the width padding: round `10*v`
half-to-even, print the sign of `v` (printf prints `-0.0` for small negative
inputs), then the digits with a decimal point before the last one. -/
def fmtFixed1 (v : ℚ) : List Char :=
  (if v < 0 then ['-'] else []) ++ natDigs ((rhe (10 * v)).natAbs / 10) ++ ['.'] ++
    [Nat.digitChar ((rhe (10 * v)).natAbs % 10)]

/-- Truncation toward zero, the float-to-int conversion `"%d"` applies. -/
def truncInt (v : ℚ) : Int := if v < 0 then - ratFloor (-v) else ratFloor v

/-- Model of Python `"%d" % v` without the width padding. -/
def fmtIntStr (v : ℚ) : List Char :=
  (if truncInt v < 0 then ['-'] else []) ++ natDigs (truncInt v).natAbs

/-- Left-pad with spaces to width 5, the `5` in `"%5.1f"` / `"%5d"`. -/
def padLeft5 (s : List Char) : List Char := List.replicate (5 - s.length) ' ' ++ s

/-- The rejection test of `format` (main.py line 80 and 82):
`5 < len(r) or (r[0] != " " and r[0] != "-")`. -/
def overflow (r : List Char) : Prop :=
  5 < r.length ∨ (r.head? ≠ some ' ' ∧ r.head? ≠ some '-')

instance (r : List Char) : Decidable (overflow r) := by
  unfold overflow; infer_instance

/-- Embedding of `format` (main.py lines 78-84). -/
def format (v : ℚ) : List Char :=
  let r := padLeft5 (fmtFixed1 v)
  if overflow r then
    let r2 := padLeft5 (fmtIntStr v)
    if overflow r2 then
      if 0 < v then " High".toList else " Low ".toList
    else r2
  else r

example : format (1234/100) = " 12.3".toList := by decide
example : format (-1) = " -1.0".toList := by decide
example : format 123456 = " High".toList := by decide
example : format (-99999) = " Low ".toList := by decide
example : format 0 = "  0.0".toList := by decide
example : format (9996/100) = "   99".toList := by decide

/-- Acceptance test as the spec words it (§4.4): rendered width at most 5
and the leading character a space or a minus sign. -/
def acceptable (r : List Char) : Prop :=
  r.length ≤ 5 ∧ (r.head? = some ' ' ∨ r.head? = some '-')

instance (r : List Char) : Decidable (acceptable r) := by
  unfold acceptable; infer_instance

/-- The three-tier fallback of §4.4 of the spec, worded as the spec does:
try the one-decimal rendering, accept iff `acceptable`; else try the signed
integer rendering under the same rule; else the literal overflow tokens. -/
def specFormat (v : ℚ) : List Char :=
  let r1 := padLeft5 (fmtFixed1 v)
  if acceptable r1 then r1
  else
    let r2 := padLeft5 (fmtIntStr v)
    if acceptable r2 then r2
    else if 0 < v then " High".toList else " Low ".toList

lemma acceptable_iff_not_overflow (r : List Char) : acceptable r ↔ ¬ overflow r := by
  unfold acceptable overflow
  constructor
  · rintro ⟨h1, h2⟩ (h3 | ⟨h4, h5⟩)
    · omega
    · rcases h2 with h2 | h2 <;> simp_all
  · intro h
    push_neg at h
    refine ⟨by omega, ?_⟩
    by_cases he : r.head? = some ' '
    · exact Or.inl he
    · exact Or.inr (h.2 he)

lemma format_eq_specFormat (v : ℚ) : format v = specFormat v := by
  unfold format specFormat
  by_cases h1 : overflow (padLeft5 (fmtFixed1 v)) <;>
    by_cases h2 : overflow (padLeft5 (fmtIntStr v)) <;>
      simp [acceptable_iff_not_overflow, h1, h2]

lemma padLeft5_length (s : List Char) : (padLeft5 s).length = (5 - s.length) + s.length := by
  simp [padLeft5]

lemma length_of_not_overflow {s : List Char} (h : ¬ overflow (padLeft5 s)) :
    (padLeft5 s).length = 5 := by
  unfold overflow at h
  push_neg at h
  have := padLeft5_length s
  omega

lemma format_length (v : ℚ) : (format v).length = 5 := by
  unfold format
  by_cases h1 : overflow (padLeft5 (fmtFixed1 v))
  · by_cases h2 : overflow (padLeft5 (fmtIntStr v))
    · by_cases h3 : 0 < v <;> simp [h1, h2, h3]
    · simp [h1, h2, length_of_not_overflow h2]
  · simp [h1, length_of_not_overflow h1]

lemma padLeft5_getLast (l : List Char) (a : Char) :
    (padLeft5 (l ++ [a])).getLast? = some a := by
  unfold padLeft5
  rw [← List.append_assoc]
  exact List.getLast?_concat _

lemma natDigsAux_eq_concat (fuel n : Nat) (h : n < fuel) :
    ∃ l, natDigsAux fuel n = l ++ [Nat.digitChar (n % 10)] := by
  cases fuel with
  | zero => omega
  | succ f =>
    by_cases h10 : n < 10
    · exact ⟨[], by simp [natDigsAux, h10, Nat.mod_eq_of_lt h10]⟩
    · exact ⟨natDigsAux f (n / 10), by simp [natDigsAux, h10]⟩

lemma natDigs_eq_concat (n : Nat) : ∃ l, natDigs n = l ++ [Nat.digitChar (n % 10)] :=
  natDigsAux_eq_concat (n + 1) n (Nat.lt_succ_self n)

/-- Every output of `format` is a numeric rendering ending in a decimal
digit, or one of the two literal overflow tokens. -/
lemma format_getLast_cases (v : ℚ) :
    format v = " High".toList ∨ format v = " Low ".toList ∨
      ∃ k, k < 10 ∧ (format v).getLast? = some (Nat.digitChar k) := by
  unfold format
  by_cases h1 : overflow (padLeft5 (fmtFixed1 v))
  · by_cases h2 : overflow (padLeft5 (fmtIntStr v))
    · by_cases h3 : 0 < v
      · left; simp [h1, h2, h3]
      · right; left; simp [h1, h2, h3]
    · right; right
      refine ⟨(truncInt v).natAbs % 10, Nat.mod_lt _ (by norm_num), ?_⟩
      simp only [h1, h2, if_true, if_false, if_neg, if_pos]
      obtain ⟨l, hl⟩ := natDigs_eq_concat (truncInt v).natAbs
      unfold fmtIntStr
      rw [hl, ← List.append_assoc]
      exact padLeft5_getLast _ _
  · right; right
    refine ⟨(rhe (10 * v)).natAbs % 10, Nat.mod_lt _ (by norm_num), ?_⟩
    simp only [h1, if_false, if_neg, not_false_iff]
    unfold fmtFixed1
    exact padLeft5_getLast _ _

lemma format_ne_ERR (v : ℚ) : format v ≠ " ERR ".toList := by
  rcases format_getLast_cases v with h | h | ⟨k, hk, h⟩
  · rw [h]; decide
  · rw [h]; decide
  · intro he
    rw [he] at h
    have hlast : (" ERR ".toList).getLast? = some ' ' := rfl
    rw [hlast] at h
    have hdig : ∀ m : Nat, m < 10 → Nat.digitChar m ≠ ' ' := by decide
    exact hdig k hk (Option.some.inj h).symm

/-- C4: for every finite real input `v`, `format v` is a string of exactly
5 characters. -/
theorem C4_format_always_width_5 (v : ℚ) : (format v).length = 5 :=
  format_length v

/-- C3: `format` applies the three-tier fallback in order — one-decimal
rendering accepted iff width ≤ 5 with a space or minus leading character,
else signed-integer rendering under the same rule, else the literal
`" High"` for positive and `" Low "` for zero-or-negative inputs — and in
particular `format 123456 = " High"` and `format (-99999) = " Low "`. -/
theorem C3_format_three_tier_fallback :
    (∀ v : ℚ, format v = specFormat v) ∧
      format 123456 = " High".toList ∧ format (-99999) = " Low ".toList :=
  ⟨format_eq_specFormat, by decide, by decide⟩

/-- Split a character list at the first character satisfying `p`:
`some (before, after)` if one exists, `none` otherwise. -/
def splitFirstP (p : Char → Bool) : List Char → Option (List Char × List Char)
  | [] => none
  | c :: cs =>
    if p c then some ([], cs)
    else
      match splitFirstP p cs with
      | some (a, b) => some (c :: a, b)
      | none => none

/-- Model of Python `s.split(sep, 1)` restricted to the case where the
separator occurs: the parts before and after its first occurrence. -/
def splitFirst (sep : Char) : List Char → Option (List Char × List Char) :=
  splitFirstP (fun c => c == sep)

/-- Model of Python `str.splitlines` for newline-delimited text (only the
`\n` terminator is modelled; the subprocess output is text-mode). -/
def splitlinesModel : List Char → List (List Char)
  | [] => []
  | c :: cs =>
    if c == '\n' then [] :: splitlinesModel cs
    else
      match splitlinesModel cs with
      | [] => [[c]]
      | l :: ls => (c :: l) :: ls

example : splitlinesModel "ab\nc".toList = ["ab".toList, "c".toList] := by decide
example : splitlinesModel "ab\n".toList = ["ab".toList] := by decide
example : splitlinesModel "".toList = [] := by decide
example : splitlinesModel "\n".toList = [[]] := by decide

/-- The ASCII whitespace characters Python strips around numeric literals. -/
def isSpaceChar (c : Char) : Bool :=
  c == ' ' || c == '\t' || c == '\n' || c == '\r' || c == '\x0b' || c == '\x0c'

/-- Strip whitespace from both ends, as Python `int()`/`float()` do. -/
def stripWs (s : List Char) : List Char :=
  ((s.dropWhile isSpaceChar).reverse.dropWhile isSpaceChar).reverse

/-- Digit-run scanner shared by the models of Python `int()` and `float()`:
accumulates the value and the number of digits seen; `prev` records whether
the previous character was a digit, since an underscore is legal only
between digits.  Returns `none` on any other character. -/
def digitCoreCnt (acc cnt : Nat) (prev : Bool) : List Char → Option (Nat × Nat)
  | [] => if prev then some (acc, cnt) else none
  | c :: cs =>
    if c.isDigit then digitCoreCnt (acc * 10 + (c.toNat - 48)) (cnt + 1) true cs
    else if c == '_' && prev then digitCoreCnt acc cnt false cs
    else none

/-- A Python `digitpart`: a nonempty digit run with optional underscores
between digits.  Yields the value and the digit count. -/
def digitPartCnt : List Char → Option (Nat × Nat)
  | [] => none
  | c :: cs => if c.isDigit then digitCoreCnt (c.toNat - 48) 1 true cs else none

/-- Value of a Python `digitpart`. -/
def digitPart (s : List Char) : Option Nat := (digitPartCnt s).map Prod.fst

/-- Model of Python `int(s)` (base 10, ASCII digits). -/
def pyInt (s : List Char) : Option Int :=
  match stripWs s with
  | '+' :: r => (digitPart r).map (fun n => (n : Int))
  | '-' :: r => (digitPart r).map (fun n => -(n : Int))
  | r => (digitPart r).map (fun n => (n : Int))

/-- Exponent of a Python float literal: optional sign then a digitpart. -/
def expPart (s : List Char) : Option Int :=
  match s with
  | '+' :: r => (digitPart r).map (fun n => (n : Int))
  | '-' :: r => (digitPart r).map (fun n => -(n : Int))
  | r => (digitPart r).map (fun n => (n : Int))

/-- Mantissa of a Python float literal: `digits`, `digits.`, `.digits` or
`digits.digits`, evaluated exactly as a rational. -/
def mantissaVal (s : List Char) : Option ℚ :=
  match splitFirst '.' s with
  | none => (digitPart s).map (fun n => (n : ℚ))
  | some (i, f) =>
    match i, f with
    | [], [] => none
    | [], _ => (digitPartCnt f).map (fun nc => (nc.1 : ℚ) / 10 ^ nc.2)
    | _, [] => (digitPart i).map (fun n => (n : ℚ))
    | _, _ =>
      match digitPart i, digitPartCnt f with
      | some n, some nc => some ((n : ℚ) + (nc.1 : ℚ) / 10 ^ nc.2)
      | _, _ => none

/-- Unsigned Python float literal: mantissa with an optional
`e`/`E`-exponent. -/
def pyNumber (s : List Char) : Option ℚ :=
  match splitFirstP (fun c => c == 'e' || c == 'E') s with
  | none => mantissaVal s
  | some (m, es) =>
    match mantissaVal m, expPart es with
    | some mv, some ev => some (mv * (10 : ℚ) ^ ev)
    | _, _ => none

/-- Model of Python `float(s)` for finite values, evaluated exactly over
`ℚ`.  The IEEE special spellings `inf`/`infinity`/`nan` have no rational
counterpart and are outside the model. -/
def pyFloat (s : List Char) : Option ℚ :=
  match stripWs s with
  | '+' :: r => pyNumber r
  | '-' :: r => (pyNumber r).map Neg.neg
  | r => pyNumber r

example : pyInt "  123 ".toList = some 123 := by decide
example : pyInt "-4".toList = some (-4) := by decide
example : pyInt "1_2".toList = some 12 := by decide
example : pyInt "1__2".toList = none := by decide
example : pyInt "12.5".toList = none := by decide
example : pyInt "".toList = none := by decide
example : pyFloat "42.5".toList = some (85/2) := by decide
example : pyFloat " -0.25 ".toList = some (-1/4) := by decide
example : pyFloat "2.5e-1".toList = some (1/4) := by decide
example : pyFloat "1_0.2_5".toList = some (41/4) := by decide
example : pyFloat ".5".toList = some (1/2) := by decide
example : pyFloat "1.".toList = some 1 := by decide
example : pyFloat "U".toList = none := by decide
example : pyFloat "".toList = none := by decide
example : pyFloat "1,2".toList = none := by decide
example : pyFloat "1._5".toList = none := by decide

lemma splitFirstP_eq_none {p : Char → Bool} :
    ∀ {s : List Char}, splitFirstP p s = none → ∀ c ∈ s, p c = false := by
  intro s
  induction s with
  | nil => intro _ c hc; cases hc
  | cons x xs ih =>
    intro h c hc
    unfold splitFirstP at h
    by_cases hx : p x = true
    · simp [hx] at h
    · rw [Bool.not_eq_true] at hx
      rw [if_neg (by simp [hx])] at h
      cases hsp : splitFirstP p xs with
      | some ab => rw [hsp] at h; cases ab; simp at h
      | none =>
        rcases List.mem_cons.mp hc with rfl | hm
        · exact hx
        · exact ih hsp c hm

lemma splitFirstP_eq_some {p : Char → Bool} :
    ∀ {s a b : List Char}, splitFirstP p s = some (a, b) →
      ∃ c, p c = true ∧ s = a ++ c :: b ∧ ∀ x ∈ a, p x = false := by
  intro s
  induction s with
  | nil => intro a b h; cases h
  | cons x xs ih =>
    intro a b h
    unfold splitFirstP at h
    by_cases hx : p x = true
    · rw [if_pos hx] at h
      obtain ⟨rfl, rfl⟩ : a = [] ∧ b = xs := by
        constructor <;> · injection h with h2; injection h2 with h3 h4; simp_all
      exact ⟨x, hx, rfl, by intro y hy; cases hy⟩
    · rw [Bool.not_eq_true] at hx
      rw [if_neg (by simp [hx])] at h
      cases hsp : splitFirstP p xs with
      | none => rw [hsp] at h; cases h
      | some ab =>
        rw [hsp] at h
        obtain ⟨a2, b2⟩ := ab
        obtain ⟨rfl, rfl⟩ : a = x :: a2 ∧ b = b2 := by
          constructor <;> · injection h with h2; injection h2 with h3 h4; simp_all
        obtain ⟨c, hc, heq, hall⟩ := ih hsp
        refine ⟨c, hc, by rw [heq]; rfl, ?_⟩
        intro y hy
        rcases List.mem_cons.mp hy with rfl | hm
        · exact hx
        · exact hall y hm

lemma splitFirstP_append {p : Char → Bool} {c : Char} (hc : p c = true) :
    ∀ (a b : List Char), (∀ x ∈ a, p x = false) →
      splitFirstP p (a ++ c :: b) = some (a, b) := by
  intro a
  induction a with
  | nil => intro b _; rw [List.nil_append]; simp [splitFirstP, hc]
  | cons x xs ih =>
    intro b hall
    have hx : p x = false := hall x (List.mem_cons_self x xs)
    show splitFirstP p (x :: (xs ++ c :: b)) = _
    unfold splitFirstP
    rw [if_neg (by simp [hx])]
    rw [ih b (fun y hy => hall y (List.mem_cons_of_mem x hy))]

lemma splitFirst_eq_none {sep : Char} {s : List Char} (h : splitFirst sep s = none) :
    sep ∉ s := by
  intro hm
  have := splitFirstP_eq_none h sep hm
  simp at this

lemma splitFirst_eq_some {sep : Char} {s a b : List Char}
    (h : splitFirst sep s = some (a, b)) : s = a ++ sep :: b ∧ sep ∉ a := by
  obtain ⟨c, hc, heq, hall⟩ := splitFirstP_eq_some h
  have hcs : c = sep := by simpa using hc
  refine ⟨by rw [heq, hcs], fun hm => ?_⟩
  have h2 := hall sep hm
  simp at h2

lemma splitFirst_append (sep : Char) (a b : List Char) (ha : sep ∉ a) :
    splitFirst sep (a ++ sep :: b) = some (a, b) := by
  apply splitFirstP_append (by simp)
  intro x hx
  simp only [beq_eq_false_iff_ne, ne_eq]
  intro hxe
  exact ha (hxe ▸ hx)

lemma mem_dropWhile_of_not {p : Char → Bool} {c : Char} (hc : p c = false) :
    ∀ {s : List Char}, c ∈ s → c ∈ s.dropWhile p := by
  intro s
  induction s with
  | nil => intro h; cases h
  | cons x xs ih =>
    intro h
    rw [List.dropWhile_cons]
    by_cases hx : p x = true
    · rw [if_pos hx]
      rcases List.mem_cons.mp h with rfl | hm
      · rw [hc] at hx; cases hx
      · exact ih hm
    · rw [Bool.not_eq_true] at hx
      rw [if_neg (by simp [hx])]
      exact h

lemma mem_stripWs {c : Char} (hc : isSpaceChar c = false) {s : List Char}
    (h : c ∈ s) : c ∈ stripWs s := by
  unfold stripWs
  rw [List.mem_reverse]
  apply mem_dropWhile_of_not hc
  rw [List.mem_reverse]
  exact mem_dropWhile_of_not hc h

lemma digitCoreCnt_chars {acc cnt : Nat} {prev : Bool} {s : List Char} {r : Nat × Nat} :
    digitCoreCnt acc cnt prev s = some r → ∀ c ∈ s, c.isDigit = true ∨ c = '_' := by
  induction s generalizing acc cnt prev with
  | nil => intro _ c hc; cases hc
  | cons x xs ih =>
    intro h c hc
    unfold digitCoreCnt at h
    by_cases hx : x.isDigit = true
    · rw [if_pos hx] at h
      rcases List.mem_cons.mp hc with rfl | hm
      · exact Or.inl hx
      · exact ih h c hm
    · rw [Bool.not_eq_true] at hx
      rw [if_neg (by simp [hx])] at h
      by_cases hu : (x == '_' && prev) = true
      · rw [if_pos hu] at h
        rcases List.mem_cons.mp hc with rfl | hm
        · exact Or.inr (by simpa using (Bool.and_eq_true_iff.mp hu).1)
        · exact ih h c hm
      · rw [Bool.not_eq_true] at hu
        rw [if_neg (by simp [hu])] at h
        cases h

lemma digitPartCnt_chars {s : List Char} {r : Nat × Nat}
    (h : digitPartCnt s = some r) : ∀ c ∈ s, c.isDigit = true ∨ c = '_' := by
  intro c hc
  cases s with
  | nil => cases hc
  | cons x xs =>
    simp only [digitPartCnt] at h
    by_cases hx : x.isDigit = true
    · rw [if_pos hx] at h
      rcases List.mem_cons.mp hc with rfl | hm
      · exact Or.inl hx
      · exact digitCoreCnt_chars h c hm
    · rw [Bool.not_eq_true] at hx
      rw [if_neg (by simp [hx])] at h
      cases h

lemma digitPartCnt_no_comma {s : List Char} {r : Nat × Nat}
    (h : digitPartCnt s = some r) : ',' ∉ s := by
  intro hm
  rcases digitPartCnt_chars h ',' hm with hd | hd <;> simp at hd

lemma digitPart_no_comma {s : List Char} {n : Nat}
    (h : digitPart s = some n) : ',' ∉ s := by
  unfold digitPart at h
  cases hc : digitPartCnt s with
  | none => rw [hc] at h; cases h
  | some r => exact digitPartCnt_no_comma hc

lemma mantissaVal_no_comma {s : List Char} {q : ℚ} (h : mantissaVal s = some q) :
    ',' ∉ s := by
  unfold mantissaVal at h
  cases hsp : splitFirst '.' s with
  | none =>
    rw [hsp] at h
    cases hdp : digitPart s with
    | none => rw [hdp] at h; cases h
    | some n => exact digitPart_no_comma hdp
  | some ab =>
    obtain ⟨i, f⟩ := ab
    rw [hsp] at h
    obtain ⟨heq, -⟩ := splitFirst_eq_some hsp
    have hni : ',' ∉ i ∧ ',' ∉ f := by
      cases i with
      | nil =>
        cases f with
        | nil => cases h
        | cons x xs =>
          simp only at h
          cases hdc : digitPartCnt (x :: xs) with
          | none => rw [hdc] at h; cases h
          | some r => exact ⟨(by intro hm; cases hm), digitPartCnt_no_comma hdc⟩
      | cons y ys =>
        cases f with
        | nil =>
          simp only at h
          cases hdp : digitPart (y :: ys) with
          | none => rw [hdp] at h; cases h
          | some n => exact ⟨digitPart_no_comma hdp, by intro hm; cases hm⟩
        | cons x xs =>
          simp only at h
          cases hdp : digitPart (y :: ys) with
          | none => rw [hdp] at h; cases h
          | some n =>
            cases hdc : digitPartCnt (x :: xs) with
            | none => rw [hdp, hdc] at h; cases h
            | some r => exact ⟨digitPart_no_comma hdp, digitPartCnt_no_comma hdc⟩
    rw [heq]
    intro hm
    rcases List.mem_append.mp hm with hm1 | hm2
    · exact hni.1 hm1
    · rcases List.mem_cons.mp hm2 with he | hm3
      · exact absurd he (by decide)
      · exact hni.2 hm3

lemma expPart_no_comma {s : List Char} {n : Int} (h : expPart s = some n) :
    ',' ∉ s := by
  unfold expPart at h
  split at h
  · next r =>
    cases hdp : digitPart r with
    | none => rw [hdp] at h; cases h
    | some m =>
      intro hc
      rcases List.mem_cons.mp hc with he | h2
      · exact absurd he (by decide)
      · exact digitPart_no_comma hdp h2
  · next r =>
    cases hdp : digitPart r with
    | none => rw [hdp] at h; cases h
    | some m =>
      intro hc
      rcases List.mem_cons.mp hc with he | h2
      · exact absurd he (by decide)
      · exact digitPart_no_comma hdp h2
  · next =>
    cases hdp : digitPart s with
    | none => rw [hdp] at h; cases h
    | some m => exact digitPart_no_comma hdp

lemma pyNumber_no_comma {s : List Char} {q : ℚ} (h : pyNumber s = some q) :
    ',' ∉ s := by
  unfold pyNumber at h
  split at h
  · exact mantissaVal_no_comma h
  · next m es heq =>
    split at h
    · next mv ev hmv hep =>
      obtain ⟨c, hc, heqs, -⟩ := splitFirstP_eq_some heq
      rw [heqs]
      intro hm
      rcases List.mem_append.mp hm with h1 | h2
      · exact mantissaVal_no_comma hmv h1
      · rcases List.mem_cons.mp h2 with he | h3
        · rw [← he] at hc; simp at hc
        · exact expPart_no_comma hep h3
    · cases h

/-- A string containing a comma is never a valid Python float literal; this
is what makes a 4-or-more-field target spec fail at the scale conversion. -/
lemma pyFloat_comma {s : List Char} (h : ',' ∈ s) : pyFloat s = none := by
  have hm : ',' ∈ stripWs s := mem_stripWs (by decide) h
  unfold pyFloat
  split
  · next r heq =>
    rw [heq] at hm
    have hr : ',' ∈ r := by
      rcases List.mem_cons.mp hm with he | h2
      · exact absurd he (by decide)
      · exact h2
    cases hpn : pyNumber r with
    | none => rfl
    | some q => exact absurd hr (pyNumber_no_comma hpn)
  · next r heq =>
    rw [heq] at hm
    have hr : ',' ∈ r := by
      rcases List.mem_cons.mp hm with he | h2
      · exact absurd he (by decide)
      · exact h2
    cases hpn : pyNumber r with
    | none => rfl
    | some q => exact absurd hr (pyNumber_no_comma hpn)
  · next =>
    cases hpn : pyNumber (stripWs s) with
    | none => rfl
    | some q => exact absurd hm (pyNumber_no_comma hpn)

/-- Embedding of the `Target` dataclass (main.py lines 19-23); the `Path`
field keeps the raw path string. -/
structure Target where
  symbol : List Char
  file : List Char
  scale : ℚ
deriving DecidableEq

/-- Model of Python `s.split(",", 2)`: at most two splits, so one to three
parts, the third keeping any further commas. -/
def splitMax2 (sep : Char) (s : List Char) : List (List Char) :=
  match splitFirst sep s with
  | none => [s]
  | some (a, r) =>
    match splitFirst sep r with
    | none => [a, r]
    | some (b, c) => [a, b, c]

/-- Embedding of `Target.of` (main.py lines 25-38).  The `ValueError`s
raised by the symbol-length check, by `float(f)` and by the catch-all match
arm are modelled as `Except.error` with the corresponding message. -/
def Target.of (s : List Char) : Except (List Char) Target :=
  match splitMax2 ',' s with
  | [y, p] =>
    if y.length ≠ 1 then .error ("length of symbol must be 1: ".toList ++ y)
    else .ok ⟨y, p, 1⟩
  | [y, p, f] =>
    if y.length ≠ 1 then .error ("length of symbol must be 1: ".toList ++ y)
    else
      match pyFloat f with
      | some x => .ok ⟨y, p, x⟩
      | none => .error ("could not convert string to float: ".toList ++ f)
  | _ => .error "target must be 'symbol,rrdfile[,scale]' format".toList

example : Target.of "a,db.rrd".toList = .ok ⟨['a'], "db.rrd".toList, 1⟩ := by decide
example : Target.of "a,db.rrd,0.5".toList = .ok ⟨['a'], "db.rrd".toList, 1/2⟩ := by decide
example : (Target.of "ab,db.rrd".toList).isOk = false := by decide
example : (Target.of "a".toList).isOk = false := by decide
example : (Target.of "a,b,c,d".toList).isOk = false := by decide
example : (Target.of "a,db.rrd,x".toList).isOk = false := by decide

/-- Embedding of the `State` dataclass (main.py lines 41-44), the Reading:
`observedAt` models the field `at` (a Lean keyword) as rational seconds
since the epoch, `value` the raw sampled value. -/
structure State where
  observedAt : ℚ
  value : ℚ
deriving DecidableEq

/-- The two exception kinds the body of `get_value` can raise. -/
inductive PyExc where
  | indexError
  | valueError
deriving DecidableEq

/-- Embedding of `get_value` (main.py lines 47-62).  The subprocess reply
is abstracted to its `returncode` and `stdout` text; the command line built
from the target file and the optional rrdcache socket does not affect the
parse, so it is not modelled.  A raised exception (`IndexError` from
`splitlines()[-1]` on empty output, `ValueError` from `int(t)`/`float(v)`)
is modelled as `Except.error`. -/
def get_value (returncode : Int) (stdout : List Char) : Except PyExc (Option State) :=
  if returncode ≠ 0 then .ok none
  else
    match (splitlinesModel stdout).getLast? with
    | none => .error .indexError
    | some a =>
      match splitFirst ':' a with
      | none => .ok none
      | some (t, v) =>
        if v = ['U'] then .ok none
        else
          match pyInt t, pyFloat v with
          | some ti, some vf => .ok (some ⟨(ti : ℚ), vf⟩)
          | _, _ => .error .valueError

example : get_value 1 "whatever".toList = .ok none := by decide
example : get_value 0 "".toList = .error .indexError := by decide
example : get_value 0 "nocolon".toList = .ok none := by decide
example : get_value 0 "1700000000:U".toList = .ok none := by decide
example : get_value 0 "900:1.5".toList = .ok (some ⟨900, 3/2⟩) := by decide
example : get_value 0 "x\n900:abc".toList = .error .valueError := by decide
example : get_value 0 "900:42\n".toList = .ok (some ⟨900, 42⟩) := by decide

/-- C1 counterexample: with exit status 0 and empty stdout (a possible
collaborator reply), `get_value` raises `IndexError` from
`splitlines()[-1]` instead of returning a value — the claim that every
parse failure yields `None` without raising is false on the code. -/
theorem C1_counterexample_empty_stdout_raises :
    get_value 0 [] = Except.error PyExc.indexError := by decide

/-- C1 (amended): `get_value` returns `None` without raising for a non-zero
exit status, for a last output line without a `:` separator, and (per the
code path) for the sentinel token; but empty stdout raises `IndexError`,
and a non-integer timestamp token or a non-numeric value token other than
`U` raises `ValueError`, which propagates into the scheduler loop. -/
theorem C1_get_value_error_taxonomy :
    (∀ rc : Int, ∀ out : List Char, rc ≠ 0 → get_value rc out = .ok none) ∧
    (∀ out a : List Char, (splitlinesModel out).getLast? = some a →
      splitFirst ':' a = none → get_value 0 out = .ok none) ∧
    (∀ out : List Char, splitlinesModel out = [] →
      get_value 0 out = .error .indexError) ∧
    (∀ out a t v : List Char, (splitlinesModel out).getLast? = some a →
      splitFirst ':' a = some (t, v) → v ≠ ['U'] →
      pyInt t = none ∨ pyFloat v = none →
      get_value 0 out = .error .valueError) := by
  refine ⟨?_, ?_, ?_, ?_⟩
  · intro rc out hrc
    unfold get_value
    rw [if_pos hrc]
  · intro out a hlast hsp
    unfold get_value
    simp only [ne_eq, not_true_eq_false, if_false, hlast, hsp]
  · intro out hnil
    unfold get_value
    simp only [ne_eq, not_true_eq_false, if_false, hnil, List.getLast?_nil]
  · intro out a t v hlast hsp hv hor
    unfold get_value
    simp only [ne_eq, not_true_eq_false, if_false, hlast, hsp, if_neg hv]
    rcases hor with hn | hn
    · rw [hn]
    · cases hpi : pyInt t with
      | none => rw [hn]
      | some ti => rw [hn]

/-- C1 amended claim, exercised at concrete inputs: a non-numeric value
token raises `ValueError`, and a non-zero exit status yields `None`. -/
theorem C1_get_value_error_taxonomy_witness :
    get_value 0 "900:forty".toList = .error .valueError ∧
    get_value 3 "900:42".toList = .ok none :=
  ⟨C1_get_value_error_taxonomy.2.2.2 "900:forty".toList "900:forty".toList
      "900".toList "forty".toList (by decide) (by decide) (by decide)
      (Or.inr (by decide)),
    C1_get_value_error_taxonomy.1 3 "900:42".toList (by decide)⟩

/-- C8: `get_value` returns `None` on a non-zero collaborator exit status
and on the sentinel value token `U`; otherwise, for a last output line
`timestamp:value` with an integer timestamp and a numeric value, it returns
a Reading whose `observedAt` is the timestamp in epoch seconds and whose
raw value is the parsed number. -/
theorem C8_get_value_contract :
    (∀ rc : Int, ∀ out : List Char, rc ≠ 0 → get_value rc out = .ok none) ∧
    (∀ out a t : List Char, (splitlinesModel out).getLast? = some a →
      splitFirst ':' a = some (t, ['U']) → get_value 0 out = .ok none) ∧
    (∀ out a t v : List Char, ∀ ti : Int, ∀ q : ℚ,
      (splitlinesModel out).getLast? = some a →
      splitFirst ':' a = some (t, v) →
      pyInt t = some ti → pyFloat v = some q →
      get_value 0 out = .ok (some ⟨(ti : ℚ), q⟩)) := by
  refine ⟨?_, ?_, ?_⟩
  · intro rc out hrc
    unfold get_value
    rw [if_pos hrc]
  · intro out a t hlast hsp
    unfold get_value
    simp only [ne_eq, not_true_eq_false, if_false, if_true, hlast, hsp, if_pos rfl]
  · intro out a t v ti q hlast hsp hti hq
    have hv : v ≠ ['U'] := by
      intro he
      have hU : pyFloat ['U'] = none := by decide
      rw [he, hU] at hq
      cases hq
    unfold get_value
    simp only [ne_eq, not_true_eq_false, if_false, hlast, hsp, if_neg hv, hti, hq]

/-- C8 exercised at concrete inputs: a well-formed two-line reply yields
the parsed Reading, and a sentinel `U` value yields `None`. -/
theorem C8_get_value_contract_witness :
    get_value 0 "hdr\n1700000000:42.5".toList =
      .ok (some ⟨1700000000, 85/2⟩) ∧
    get_value 0 "1700000000:U".toList = .ok none :=
  ⟨C8_get_value_contract.2.2 "hdr\n1700000000:42.5".toList
      "1700000000:42.5".toList "1700000000".toList "42.5".toList 1700000000
      (85/2) (by decide) (by decide) (by decide) (by decide),
    C8_get_value_contract.2.1 "1700000000:U".toList "1700000000:U".toList
      "1700000000".toList (by decide) (by decide)⟩

lemma splitFirst_eq_none_of_not_mem {sep : Char} {s : List Char} (h : sep ∉ s) :
    splitFirst sep s = none := by
  cases hsp : splitFirst sep s with
  | none => rfl
  | some ab =>
    obtain ⟨a, b⟩ := ab
    obtain ⟨heq, -⟩ := splitFirst_eq_some hsp
    exfalso
    apply h
    rw [heq]
    exact List.mem_append.mpr (Or.inr (List.mem_cons_self _ _))

lemma splitMax2_one {s : List Char} (hs : ',' ∉ s) : splitMax2 ',' s = [s] := by
  unfold splitMax2
  rw [splitFirst_eq_none_of_not_mem hs]

lemma splitMax2_two {y p : List Char} (hy : ',' ∉ y) (hp : ',' ∉ p) :
    splitMax2 ',' (y ++ ',' :: p) = [y, p] := by
  simp only [splitMax2, splitFirst_append ',' y p hy,
    splitFirst_eq_none_of_not_mem hp]

lemma splitMax2_three {y p f : List Char} (hy : ',' ∉ y) (hp : ',' ∉ p) :
    splitMax2 ',' (y ++ ',' :: (p ++ ',' :: f)) = [y, p, f] := by
  simp only [splitMax2, splitFirst_append ',' y _ hy, splitFirst_append ',' p f hp]

lemma targetOf_two_fields {y p : List Char} (hy : ',' ∉ y) (hp : ',' ∉ p) :
    Target.of (y ++ ',' :: p) =
      if y.length = 1 then Except.ok (⟨y, p, 1⟩ : Target)
      else Except.error ("length of symbol must be 1: ".toList ++ y) := by
  unfold Target.of
  simp only [splitMax2_two hy hp]
  by_cases hlen : y.length = 1
  · rw [if_neg (by simp [hlen]), if_pos hlen]
  · rw [if_pos hlen, if_neg hlen]

lemma targetOf_three_fields {y p f : List Char} (hy : ',' ∉ y) (hp : ',' ∉ p) :
    Target.of (y ++ ',' :: (p ++ ',' :: f)) =
      if y.length = 1 then
        (match pyFloat f with
          | some x => Except.ok (⟨y, p, x⟩ : Target)
          | none => Except.error ("could not convert string to float: ".toList ++ f))
      else Except.error ("length of symbol must be 1: ".toList ++ y) := by
  unfold Target.of
  simp only [splitMax2_three hy hp]
  by_cases hlen : y.length = 1
  · rw [if_neg (by simp [hlen]), if_pos hlen]
  · rw [if_pos hlen, if_neg hlen]

/-- C5: target parsing — two comma-separated fields succeed with scale 1.0
iff the symbol is one character; three fields succeed iff the symbol is one
character and the scale parses as a real number; a single field, a
symbol of length ≠ 1, or more than three fields (a comma inside the third
part) all fail with an error. -/
theorem C5_target_grammar :
    (∀ y p : List Char, ',' ∉ y → ',' ∉ p → y.length = 1 →
      Target.of (y ++ ',' :: p) = .ok ⟨y, p, 1⟩) ∧
    (∀ y p : List Char, ',' ∉ y → ',' ∉ p → y.length ≠ 1 →
      (Target.of (y ++ ',' :: p)).isOk = false) ∧
    (∀ y p f : List Char, ∀ q : ℚ, ',' ∉ y → ',' ∉ p → y.length = 1 →
      pyFloat f = some q →
      Target.of (y ++ ',' :: (p ++ ',' :: f)) = .ok ⟨y, p, q⟩) ∧
    (∀ y p f : List Char, ',' ∉ y → ',' ∉ p →
      y.length ≠ 1 ∨ pyFloat f = none →
      (Target.of (y ++ ',' :: (p ++ ',' :: f))).isOk = false) ∧
    (∀ s : List Char, ',' ∉ s → (Target.of s).isOk = false) ∧
    (∀ y p f : List Char, ',' ∉ y → ',' ∉ p → ',' ∈ f →
      (Target.of (y ++ ',' :: (p ++ ',' :: f))).isOk = false) := by
  have hthree : ∀ y p f : List Char, ',' ∉ y → ',' ∉ p →
      y.length ≠ 1 ∨ pyFloat f = none →
      (Target.of (y ++ ',' :: (p ++ ',' :: f))).isOk = false := by
    intro y p f hy hp hor
    rcases hor with hlen | hnf
    · rw [targetOf_three_fields hy hp, if_neg hlen]; rfl
    · by_cases hlen : y.length = 1
      · rw [targetOf_three_fields hy hp, if_pos hlen, hnf]; rfl
      · rw [targetOf_three_fields hy hp, if_neg hlen]; rfl
  refine ⟨?_, ?_, ?_, hthree, ?_, ?_⟩
  · intro y p hy hp hlen
    rw [targetOf_two_fields hy hp, if_pos hlen]
  · intro y p hy hp hlen
    rw [targetOf_two_fields hy hp, if_neg hlen]; rfl
  · intro y p f q hy hp hlen hq
    rw [targetOf_three_fields hy hp, if_pos hlen, hq]
  · intro s hs
    unfold Target.of
    rw [splitMax2_one hs]
    rfl
  · intro y p f hy hp hf
    exact hthree y p f hy hp (Or.inr (pyFloat_comma hf))

/-- C5 exercised at concrete inputs: both success forms, the defaulted
scale, a two-character symbol, a single field and a four-field string. -/
theorem C5_target_grammar_witness :
    Target.of (['a'] ++ ',' :: "db.rrd".toList) = .ok ⟨['a'], "db.rrd".toList, 1⟩ ∧
    Target.of (['a'] ++ ',' :: ("db.rrd".toList ++ ',' :: "2.5".toList)) =
      .ok ⟨['a'], "db.rrd".toList, 5/2⟩ ∧
    (Target.of ("ab".toList ++ ',' :: "db.rrd".toList)).isOk = false ∧
    (Target.of "justone".toList).isOk = false ∧
    (Target.of (['a'] ++ ',' :: (['b'] ++ ',' :: "c,d".toList))).isOk = false :=
  ⟨C5_target_grammar.1 ['a'] "db.rrd".toList (by decide) (by decide) (by decide),
    C5_target_grammar.2.2.1 ['a'] "db.rrd".toList "2.5".toList (5/2)
      (by decide) (by decide) (by decide) (by decide),
    C5_target_grammar.2.1 "ab".toList "db.rrd".toList
      (by decide) (by decide) (by decide),
    C5_target_grammar.2.2.2.2.1 "justone".toList (by decide),
    C5_target_grammar.2.2.2.2.2 ['a'] ['b'] "c,d".toList
      (by decide) (by decide) (by decide)⟩

/-- Outcome of one iteration of the scheduler loop body for the current
target: the stored Reading afterwards, the label handed to `scroll_to`,
and whether a fetch attempt was made this cycle. -/
structure CycleOut where
  state : Option State
  label : List Char
  didFetch : Bool
deriving DecidableEq

/-- The refresh trigger (main.py line 133): no Reading stored, or the
Reading strictly older than the update interval. -/
def needsRefresh (updateInterval now : ℚ) : Option State → Bool
  | none => true
  | some st => decide (updateInterval < now - st.observedAt)

/-- The maybe-refresh step (main.py lines 133-136): when refresh is due,
the fetch outcome (`none` models a fetch attempt that returned `None`)
replaces the stored Reading only when it is `some`. -/
def maybeRefresh (updateInterval now : ℚ) (fetch : Option State)
    (s : Option State) : Option State :=
  if needsRefresh updateInterval now s then
    match fetch with
    | some ns => some ns
    | none => s
  else s

/-- The render step (main.py lines 138-144), producing the label handed to
`scroll_to`: the symbol followed by `" ERR "` when no Reading exists or it
is older than the error threshold, else the symbol followed by the
formatted scaled value. -/
def render (errorThreshold now : ℚ) (t : Target) (s : Option State) : List Char :=
  match s with
  | none => t.symbol ++ " ERR ".toList
  | some st =>
    if errorThreshold < now - st.observedAt then t.symbol ++ " ERR ".toList
    else t.symbol ++ format (st.value * t.scale)

/-- One iteration of the scheduler loop body (main.py lines 128-146) for
the current target `t` with stored Reading `s`.  `now` is sampled once at
the top of the cycle, before any fetch attempt, and is used by both the
refresh decision and the error classification; `fetch` is the reply
`get_value` would give this cycle. -/
def cycleStep (updateInterval errorThreshold now : ℚ) (fetch : Option State)
    (t : Target) (s : Option State) : CycleOut :=
  { state := maybeRefresh updateInterval now fetch s
    label := render errorThreshold now t (maybeRefresh updateInterval now fetch s)
    didFetch := needsRefresh updateInterval now s }

/-- C2: a cycle whose fetch attempt returns `None` leaves the stored
Reading for the target exactly as it was before the cycle (no field
changed, no reset); the failure is absorbed, never raised — `cycleStep`
is total. -/
theorem C2_failed_fetch_retains_reading (updateInterval errorThreshold now : ℚ)
    (t : Target) (s : Option State) :
    (cycleStep updateInterval errorThreshold now none t s).state = s := by
  unfold cycleStep maybeRefresh
  split <;> rfl

/-- C7: a fetch attempt is triggered iff no Reading is stored or the
stored Reading is strictly older than the update interval; with a 300 s
interval, an age of 301 s triggers a refresh attempt and 299 s does not. -/
theorem C7_refresh_trigger :
    (∀ updateInterval errorThreshold now : ℚ, ∀ fetch : Option State,
      ∀ t : Target, ∀ s : Option State,
      ((cycleStep updateInterval errorThreshold now fetch t s).didFetch = true ↔
        (s = none ∨ ∃ st, s = some st ∧ updateInterval < now - st.observedAt))) ∧
    (∀ t : Target, ∀ v : ℚ,
      (cycleStep 300 1800 301 none t (some ⟨0, v⟩)).didFetch = true) ∧
    (∀ t : Target, ∀ v : ℚ,
      (cycleStep 300 1800 299 none t (some ⟨0, v⟩)).didFetch = false) := by
  refine ⟨?_, ?_, ?_⟩
  · intro updateInterval errorThreshold now fetch t s
    unfold cycleStep needsRefresh
    cases s with
    | none => simp
    | some st => simp [decide_eq_true_iff]
  · intro t v
    simp only [cycleStep, needsRefresh]
    rw [decide_eq_true_eq]
    norm_num
  · intro t v
    simp only [cycleStep, needsRefresh]
    rw [decide_eq_false_iff_not]
    norm_num

/-- C6: after the maybe-refresh step, a cycle renders the symbol followed
by `" ERR "` iff the Reading is absent or strictly older than the error
threshold, and otherwise the symbol followed by the formatted scaled
value; the label is 6 characters for a 1-character symbol.  Concretely,
with threshold 1800 s and no successful refresh, a Reading aged 1801 s
renders ERR and one aged 1799 s renders the formatted value. -/
theorem C6_error_state_and_render :
    (∀ errorThreshold now : ℚ, ∀ t : Target, ∀ s : Option State,
      (render errorThreshold now t s = t.symbol ++ " ERR ".toList ↔
        (s = none ∨ ∃ st, s = some st ∧ errorThreshold < now - st.observedAt))) ∧
    (∀ errorThreshold now : ℚ, ∀ t : Target, ∀ st : State,
      ¬ errorThreshold < now - st.observedAt →
      render errorThreshold now t (some st) =
        t.symbol ++ format (st.value * t.scale)) ∧
    (∀ errorThreshold now : ℚ, ∀ t : Target, ∀ s : Option State,
      t.symbol.length = 1 → (render errorThreshold now t s).length = 6) ∧
    (∀ t : Target, ∀ v : ℚ,
      (cycleStep 300 1800 1801 none t (some ⟨0, v⟩)).label =
        t.symbol ++ " ERR ".toList) ∧
    (∀ t : Target, ∀ v : ℚ,
      (cycleStep 300 1800 1799 none t (some ⟨0, v⟩)).label =
        t.symbol ++ format (v * t.scale)) := by
  have hstay : ∀ now v, maybeRefresh 300 now none (some ⟨0, v⟩) = some ⟨0, v⟩ := by
    intro now v
    unfold maybeRefresh
    split <;> rfl
  refine ⟨?_, ?_, ?_, ?_, ?_⟩
  · intro errT now t s
    cases s with
    | none => simp [render]
    | some st =>
      simp only [render]
      by_cases h : errT < now - st.observedAt
      · rw [if_pos h]
        simp [h]
      · rw [if_neg h]
        constructor
        · intro he
          exact absurd (List.append_cancel_left he) (format_ne_ERR _)
        · rintro (hn | ⟨st2, hst2, hlt⟩)
          · cases hn
          · injection hst2 with he2
            rw [← he2] at hlt
            exact absurd hlt h
  · intro errT now t st h
    simp only [render]
    rw [if_neg h]
  · intro errT now t s hsym
    have hERR : (" ERR ".toList).length = 5 := rfl
    cases s with
    | none => simp [render, hsym, hERR]
    | some st =>
      simp only [render]
      by_cases h : errT < now - st.observedAt
      · rw [if_pos h]; simp [hsym, hERR]
      · rw [if_neg h]; simp [hsym, format_length]
  · intro t v
    simp only [cycleStep, hstay]
    simp only [render]
    rw [if_pos (by norm_num)]
  · intro t v
    simp only [cycleStep, hstay]
    simp only [render]
    rw [if_neg (by norm_num)]

/-- C6 exercised at a concrete input: a Reading 1 s inside the threshold
renders the formatted value, and the rendered label is 6 characters. -/
theorem C6_error_state_and_render_witness :
    render 1800 1799 ⟨['x'], [], 1⟩ (some ⟨0, 42⟩) =
      (⟨['x'], [], 1⟩ : Target).symbol ++
        format ((⟨0, (42 : ℚ)⟩ : State).value * (⟨['x'], [], 1⟩ : Target).scale) ∧
    (render 1800 5000 ⟨['x'], [], 1⟩ (some ⟨0, 42⟩)).length = 6 :=
  ⟨C6_error_state_and_render.2.1 1800 1799 ⟨['x'], [], 1⟩ ⟨0, 42⟩ (by norm_num),
    C6_error_state_and_render.2.2.1 1800 5000 ⟨['x'], [], 1⟩ (some ⟨0, 42⟩) (by decide)⟩

/-- C10: both the refresh decision and the error classification of a cycle
use the single timestamp sampled before the fetch attempt; hence a cycle
whose fetch succeeds still renders the ERR label whenever the fetched
Reading's `observedAt` is more than the error threshold before that
pre-fetch time, while the fresh Reading is stored. -/
theorem C10_prefetch_timestamp (updateInterval errorThreshold now : ℚ)
    (t : Target) (s : Option State) (ns : State)
    (hdue : needsRefresh updateInterval now s = true)
    (hold : errorThreshold < now - ns.observedAt) :
    (cycleStep updateInterval errorThreshold now (some ns) t s).state = some ns ∧
    (cycleStep updateInterval errorThreshold now (some ns) t s).label =
      t.symbol ++ " ERR ".toList := by
  have h1 : maybeRefresh updateInterval now (some ns) s = some ns := by
    unfold maybeRefresh
    rw [if_pos hdue]
  refine ⟨by simp only [cycleStep, h1], ?_⟩
  simp only [cycleStep, h1]
  simp only [render]
  rw [if_pos hold]

/-- C10 exercised at a concrete input: a successful fetch of a Reading
4900 s old against a 1800 s threshold stores the Reading yet shows ERR. -/
theorem C10_prefetch_timestamp_witness :
    (cycleStep 300 1800 5000 (some ⟨100, 7⟩) ⟨['x'], [], 1⟩ none).state =
      some ⟨100, 7⟩ ∧
    (cycleStep 300 1800 5000 (some ⟨100, 7⟩) ⟨['x'], [], 1⟩ none).label =
      (⟨['x'], [], 1⟩ : Target).symbol ++ " ERR ".toList :=
  C10_prefetch_timestamp 300 1800 5000 ⟨['x'], [], 1⟩ none ⟨100, 7⟩
    (by decide) (by norm_num)

/-- Operational model of `itertools.cycle` (main.py line 127): the
iterator holds the remaining tail `cur` of the saved list `orig` and
refills from `orig` once the tail is exhausted.  `cycleNth orig k cur` is
the k-th element yielded from iterator state `cur`; the loop starts at
`cur = orig`. -/
def cycleNth {α : Type} (orig : List α) : Nat → List α → Option α
  | 0, c :: _ => some c
  | 0, [] => orig.head?
  | k + 1, _ :: rest => cycleNth orig k rest
  | k + 1, [] =>
    match orig with
    | [] => none
    | _ :: os => cycleNth orig k os

lemma cycleNth_drop {α : Type} (orig : List α) (h : orig ≠ []) :
    ∀ (k j : Nat), j ≤ orig.length →
      cycleNth orig k (orig.drop j) = orig[(j + k) % orig.length]? := by
  have hpos : 0 < orig.length := List.length_pos.mpr h
  intro k
  induction k with
  | zero =>
    intro j hj
    rcases Nat.lt_or_eq_of_le hj with hlt | heq
    · rw [List.drop_eq_getElem_cons hlt]
      show some orig[j] = _
      rw [Nat.add_zero, Nat.mod_eq_of_lt hlt, List.getElem?_eq_getElem hlt]
    · rw [heq, List.drop_length]
      show orig.head? = _
      rw [Nat.add_zero, Nat.mod_self, ← List.get?_zero, List.get?_eq_getElem?]
  | succ k ih =>
    intro j hj
    rcases Nat.lt_or_eq_of_le hj with hlt | heq
    · rw [List.drop_eq_getElem_cons hlt]
      show cycleNth orig k (orig.drop (j + 1)) = _
      rw [ih (j + 1) hlt]
      have harith : j + 1 + k = j + (k + 1) := by omega
      rw [harith]
    · rw [heq, List.drop_length]
      cases horig : orig with
      | nil => exact absurd horig h
      | cons o os =>
        have h2 := ih 1 hpos
        rw [horig] at h2
        simp only [List.drop_succ_cons, List.drop_zero] at h2
        show cycleNth (o :: os) k os = _
        rw [h2, Nat.add_mod_left, Nat.add_comm 1 k]

/-- C9: starting from index 0, the k-th cycle of the loop over
`itertools.cycle(enumerate(targets))` handles the entry at index
`k mod N`, where `N` is the number of configured targets. -/
theorem C9_round_robin_order (targets : List Target) (k : Nat)
    (h : targets ≠ []) :
    cycleNth targets.enum k targets.enum =
      targets.enum[k % targets.length]? ∧
    (cycleNth targets.enum k targets.enum).map Prod.fst =
      some (k % targets.length) := by
  have hne : targets.enum ≠ [] := by
    intro he
    apply h
    have hlen := congrArg List.length he
    rw [List.enum_length] at hlen
    exact List.length_eq_zero.mp hlen
  have hmain := cycleNth_drop targets.enum hne k 0 (Nat.zero_le _)
  rw [List.drop_zero, Nat.zero_add, List.enum_length] at hmain
  have hlt : k % targets.length < targets.length :=
    Nat.mod_lt _ (List.length_pos.mpr h)
  refine ⟨hmain, ?_⟩
  rw [hmain, List.getElem?_enum, List.getElem?_eq_getElem hlt]
  rfl

/-- C9 exercised at a concrete input: with two targets, cycle 5 handles
index 1. -/
theorem C9_round_robin_order_witness :
    (cycleNth ([⟨['a'], [], 1⟩, ⟨['b'], [], 1⟩] : List Target).enum 5
        ([⟨['a'], [], 1⟩, ⟨['b'], [], 1⟩] : List Target).enum).map Prod.fst =
      some 1 :=
  (C9_round_robin_order [⟨['a'], [], 1⟩, ⟨['b'], [], 1⟩] 5 (by decide)).2

end MdpRrd
